import Mathlib

/-!
Verification of the orchestration core of the `vscode-optipng` extension
(`src/extension.ts`) against its natural-language specification.

The TypeScript source is shallowly embedded below:
- JavaScript numbers are modelled exactly: byte counts are `Nat`, and the
  savings-ratio arithmetic is carried out over `ℚ` extended with the IEEE
  special values `NaN` and `±Infinity` (`JsNum`), which is exact on the
  integer byte counts and divisions appearing here.
- The three command handlers (`oxipng.optimisePng`, `oxipng.optimisePngFolder`,
  `oxipng.optimisePngGitChanges`) are embedded as pure functions over an
  explicit environment (`Env`) providing the filesystem reads, the engine
  call and the filesystem writes, each fallible (`Except`).  Every external
  call the handler issues is recorded, in program order, in a trace of `Op`s.
- The source never awaits `vscode.workspace.fs.writeFile`: the write is
  issued fire-and-forget.  The trace therefore records a `writeIssue`
  operation, and the asynchronous *completion* of a write is modelled by
  separate `writeDone` events that an execution may interleave anywhere
  after the issue (`validTrace`).
-/

namespace Oxipng

/-! ### JavaScript number model for the savings strings -/

/-- A JavaScript `number` as it arises in `savingsString`/`savingsStringPercent`:
either an ordinary (here: exactly representable) value, or one of the special
values produced by division by zero. -/
inductive JsNum where
  | nan
  | posInf
  | negInf
  | val (q : ℚ)
deriving DecidableEq

/-- JavaScript subtraction `in_len - out_len` of two byte counts (exact). -/
def jsSub (a b : Nat) : ℚ := (a : ℚ) - (b : ℚ)

/-- JavaScript division: `0/0 = NaN`, `x/0 = ±Infinity` for `x ≠ 0`. -/
def jsDiv (a b : ℚ) : JsNum :=
  if b = 0 then
    if a = 0 then JsNum.nan else if 0 < a then JsNum.posInf else JsNum.negInf
  else JsNum.val (a / b)

/-- JavaScript multiplication of a possibly-special value by a positive
constant (here always `100`). -/
def jsMulPos (x : JsNum) (c : ℚ) : JsNum :=
  match x with
  | JsNum.nan => JsNum.nan
  | JsNum.posInf => JsNum.posInf
  | JsNum.negInf => JsNum.negInf
  | JsNum.val q => JsNum.val (q * c)

/-- Two-digit zero padding for the fractional part of `toFixed(2)`. -/
def pad2 (m : Nat) : String :=
  if m < 10 then "0" ++ toString m else toString m

/-- `toFixed(2)` on an ordinary non-negative value: the integer `n`
minimising the distance of `n / 100` to the value, ties towards the larger
`n`, rendered with exactly two fractional digits. -/
def fixed2 (q : ℚ) : String :=
  let n : Nat := (⌊q * 100 + 1 / 2⌋).toNat
  toString (n / 100) ++ "." ++ pad2 (n % 100)

/-- `Number.prototype.toFixed(2)` including the special values:
`NaN.toFixed(2) = "NaN"`, `Infinity.toFixed(2) = "Infinity"`. -/
def jsToFixed2 : JsNum → String
  | JsNum.nan => "NaN"
  | JsNum.posInf => "Infinity"
  | JsNum.negInf => "-Infinity"
  | JsNum.val q => fixed2 q

/-- `savingsString` (extension.ts lines 54-58): byte count plus percentage,
`in_len >= out_len` selects the "smaller" branch. -/
def savingsString (in_len out_len : Nat) : String :=
  if out_len ≤ in_len then
    toString out_len ++ " bytes (" ++
      jsToFixed2 (jsMulPos (jsDiv (jsSub in_len out_len) (in_len : ℚ)) 100) ++ "% smaller)"
  else
    toString out_len ++ " bytes (" ++
      jsToFixed2 (jsMulPos (jsDiv (jsSub out_len in_len) (in_len : ℚ)) 100) ++ "% larger)"

/-- `savingsStringPercent` (extension.ts lines 60-64): percentage only. -/
def savingsStringPercent (in_len out_len : Nat) : String :=
  if out_len ≤ in_len then
    "(" ++ jsToFixed2 (jsMulPos (jsDiv (jsSub in_len out_len) (in_len : ℚ)) 100) ++ "% smaller)"
  else
    "(" ++ jsToFixed2 (jsMulPos (jsDiv (jsSub out_len in_len) (in_len : ℚ)) 100) ++ "% larger)"

/-! ### The batch model -/

/-- Modelled from the spec: the metadata policy enumeration
`{preserve-all, strip-safe, strip-all}` of `OptimizationOptions`.  The
`vscOxipng` module defining the TypeScript enum is not part of the sources;
the call sites in `extension.ts` only ever use the strip-safe member. -/
inductive StripMetadata where
  | preserveAll
  | safe
  | all
deriving DecidableEq

/-- File contents; only their lengths are ever inspected by the core. -/
abbrev Bytes := List Nat

/-- Modelled from the spec: the `fileName` helper (from the missing
`utils/files` module), used as the per-file progress label; per the spec's
"per-file labels" and the sibling call `path.parse(file.fsPath).base`, it
is the last path component. -/
def fileName (p : String) : String :=
  (p.splitOn "/").getLastD p

/-- The external world a command invocation runs against: filesystem reads,
the engine call (`api.optimise`), and filesystem writes.  Each may fail.
`extension.ts` never awaits `vscode.workspace.fs.writeFile`, so the result
of `write` is discarded by every handler. -/
structure Env where
  readF : String → Except String Bytes
  optimise : Bytes → Nat → StripMetadata → Except String Bytes
  write : String → Bytes → Except String Unit

/-- One externally observable operation issued by a command handler, in
program order.  `writeIssue` is the (un-awaited) start of a file write;
`writeDone` its asynchronous completion, which never appears in the
synchronous trace itself but only in full executions (`validTrace`). -/
inductive Op where
  | report (inc : ℚ) (msg : String)
  | readOp (i : Nat) (p : String)
  | engineOp (i : Nat) (level : Nat) (strip : StripMetadata)
  | pauseOp (i : Nat) (ms : Nat)
  | recordOp (i : Nat) (inLen outLen : Nat)
  | writeIssue (i : Nat) (p : String) (data : Bytes)
  | writeDone (i : Nat)
  | info (msg : String)
  | errorMsg (msg : String)
deriving DecidableEq

/-- State of one command invocation: the operations issued so far, the
savings accumulator (`pngSavingsIn` / `pngSavingsOut`), and the first
uncaught error, if any. -/
structure BatchState where
  trace : List Op
  totalIn : Nat
  totalOut : Nat
  err : Option String
deriving DecidableEq

/-- The pause operation list of one iteration: empty for the folder loop,
a single `pauseOp` for the change-set loop. -/
def pauseList (pms : Option Nat) (i : Nat) : List Op :=
  match pms with
  | none => []
  | some ms => [Op.pauseOp i ms]

/-- The shared per-file loop body of `commandOptimiseFolder`
(extension.ts lines 103-114) and `commandOptimiseGitChanges` (lines
170-183), which differ only in the presence of the
`setTimeout(resolve, 2000)` pause (`pauseMs`).  Per iteration: progress
report, awaited read, awaited engine call at level 1 / strip-safe,
(optional awaited pause,) accumulator update, then a fire-and-forget
write whose outcome is never consulted.  A read or engine error rejects
the enclosing promise: the remaining files are not processed. -/
def processLoop (env : Env) (pauseMs : Option Nat) (n : Nat) :
    List String → Nat → BatchState → BatchState
  | [], _, st => st
  | f :: rest, i, st =>
    let st1 : BatchState :=
      { st with trace := st.trace ++ [Op.report (100 / (n : ℚ)) (fileName f)] }
    match env.readF f with
    | Except.error e =>
        { st1 with trace := st1.trace ++ [Op.readOp i f], err := some e }
    | Except.ok inData =>
      let st2 : BatchState := { st1 with trace := st1.trace ++ [Op.readOp i f] }
      match env.optimise inData 1 StripMetadata.safe with
      | Except.error e =>
          { st2 with
              trace := st2.trace ++ [Op.engineOp i 1 StripMetadata.safe],
              err := some e }
      | Except.ok outData =>
        let st3 : BatchState :=
          { st2 with trace := st2.trace ++ [Op.engineOp i 1 StripMetadata.safe] ++
              pauseList pauseMs i }
        let st4 : BatchState :=
          { st3 with
            trace := st3.trace ++
              [Op.recordOp i inData.length outData.length, Op.writeIssue i f outData],
            totalIn := st3.totalIn + inData.length,
            totalOut := st3.totalOut + outData.length }
        processLoop env pauseMs n rest (i + 1) st4

/-- The `withProgress` body of `commandOptimiseFolder`: the initial
0%-"Starting..." report followed by the per-file loop, no pause. -/
def runFolder (env : Env) (files : List String) : BatchState :=
  processLoop env none files.length files 0
    ⟨[Op.report 0 "Starting..."], 0, 0, none⟩

/-- `commandOptimiseFolder` after file discovery: the loop, then - only if
no error escaped - the final summary message. -/
def runFolderCmd (env : Env) (files : List String) : BatchState :=
  let st := runFolder env files
  match st.err with
  | none =>
      { st with trace := st.trace ++
          [Op.info ("Optimised " ++ toString files.length ++ " PNGs " ++
            savingsStringPercent st.totalIn st.totalOut)] }
  | some _ => st

/-- The `withProgress` body of `commandOptimiseGitChanges`: identical to
the folder loop except for the hard-coded awaited 2000 ms pause after each
engine call. -/
def runGitLoop (env : Env) (files : List String) : BatchState :=
  processLoop env (some 2000) files.length files 0
    ⟨[Op.report 0 "Starting..."], 0, 0, none⟩

/-- The change-set batch after repository resolution: the git loop, then -
only if no error escaped - the final summary message. -/
def runGitCmd (env : Env) (files : List String) : BatchState :=
  let st := runGitLoop env files
  match st.err with
  | none =>
      { st with trace := st.trace ++
          [Op.info ("Optimised " ++ toString files.length ++ " PNGs " ++
            savingsStringPercent st.totalIn st.totalOut)] }
  | some _ => st

/-- `commandOptimise` (extension.ts lines 74-84): info message, awaited
read, awaited engine call at level 2 / strip-safe, two info messages
(including the savings string), then the fire-and-forget write. -/
def runSingle (env : Env) (p : String) : BatchState :=
  let st0 : BatchState := ⟨[Op.info ("Called: " ++ p)], 0, 0, none⟩
  match env.readF p with
  | Except.error e => { st0 with trace := st0.trace ++ [Op.readOp 0 p], err := some e }
  | Except.ok inData =>
    match env.optimise inData 2 StripMetadata.safe with
    | Except.error e =>
        { st0 with
            trace := st0.trace ++ [Op.readOp 0 p, Op.engineOp 0 2 StripMetadata.safe],
            err := some e }
    | Except.ok outData =>
        { st0 with trace := st0.trace ++
            [Op.readOp 0 p, Op.engineOp 0 2 StripMetadata.safe,
             Op.info ("Optimised: " ++ p),
             Op.info (savingsString inData.length outData.length),
             Op.writeIssue 0 p outData] }

/-! ### Repository selection (`commandOptimiseGitChanges`, lines 126-157) -/

/-- A git repository handle: only its root path is consumed. -/
structure Repository where
  rootPath : String
deriving DecidableEq

/-- The slice of the vscode.git API the command consumes: the open
repositories and path-to-handle resolution (`getRepository`). -/
structure GitApi where
  repositories : List Repository
  getRepository : String → Option Repository

/-- The optional `vscode.SourceControl` argument of the command. -/
structure SourceControl where
  rootUri : String

/-- Lines 132-152: resolve the target repository.  Besides the outcome it
returns the list of arguments the quick-pick (`pick`) was invoked with, one
entry per invocation. -/
def selectRepo (gitApi : GitApi) (param : Option SourceControl)
    (pick : List String → Option String) : Option Repository × List (List String) :=
  match param with
  | some sc => (gitApi.getRepository sc.rootUri, [])
  | none =>
    if gitApi.repositories.length = 0 then (none, [])
    else if gitApi.repositories.length = 1 then (gitApi.repositories.get? 0, [])
    else
      let roots := gitApi.repositories.map (fun r => r.rootPath)
      match pick roots with
      | some result => (gitApi.getRepository result, [roots])
      | none => (none, [roots])

/-- The whole `oxipng.optimisePngGitChanges` handler: git-extension check,
repository selection (an unresolved repository - including a cancelled
quick-pick - shows the "No repository found" error), change-set listing
(`modified`, the missing `gitModifiedPNGs` helper, kept abstract), then the
git batch. -/
def commandGitChanges (gitApi? : Option GitApi) (param : Option SourceControl)
    (pick : List String → Option String) (modified : Repository → List String)
    (env : Env) : BatchState :=
  match gitApi? with
  | none => ⟨[Op.errorMsg "Git extension isn't enabled"], 0, 0, none⟩
  | some gitApi =>
    match (selectRepo gitApi param pick).1 with
    | none => ⟨[Op.errorMsg "No repository found"], 0, 0, none⟩
    | some repo => runGitCmd env (modified repo)

/-! ### Asynchronous write completions -/

/-- Is this operation a write completion? -/
def Op.isDone : Op → Bool
  | Op.writeDone _ => true
  | _ => false

/-- Is this operation the write issue for file index `i`? -/
def issueOf (i : Nat) : Op → Bool
  | Op.writeIssue j _ _ => j == i
  | _ => false

/-- Position `q` of `tr` is a write completion only if its issue occurred
strictly earlier. -/
def doneOkAt (tr : List Op) (q : Nat) : Bool :=
  match tr.get? q with
  | some (Op.writeDone i) => (tr.take q).any (issueOf i)
  | _ => true

/-- `tr` is a possible full execution of a batch whose synchronous
operation order was `base`: erasing the write completions recovers `base`,
and every completion happens after its issue.  The un-awaited writes may
complete at any later point, including after subsequent files' steps. -/
def validTrace (base tr : List Op) : Prop :=
  tr.filter (fun o => !o.isDone) = base ∧ ∀ q, q < tr.length → doneOkAt tr q = true

/-- The pair of positions `q`, `r` of `tr` does not witness a write of file
`i` completing only after the read of file `i + 1` started. -/
def c5pairOk (tr : List Op) (q r : Nat) : Bool :=
  match tr.get? q, tr.get? r with
  | some (Op.writeDone i), some (Op.readOp j _) =>
      if j = i + 1 then decide (q < r) else true
  | _, _ => true

/-- Claim C5's completion discipline on an execution: every file's write
completes before the next file's read begins. -/
def claimC5holds (tr : List Op) : Prop :=
  ∀ q, q < tr.length → ∀ r, r < tr.length → c5pairOk tr q r = true

/-- Is this operation a progress report? -/
def isReport : Op → Bool
  | Op.report _ _ => true
  | _ => false

/-! ### Claim C1: the `totalIn = 0` degenerate case -/

/-- Claim C1: the spec requires a neutral or explicit no-data result for
`totalIn = 0`; the code instead renders the IEEE special values.  With
`totalIn = 0` and `totalOut = 0` the percent string is "(NaN% smaller)",
with `totalIn = 0` and `totalOut = 5` it is "(Infinity% larger)", and the
single-file savings string at `0/0` is "0 bytes (NaN% smaller)". -/
theorem savings_zero_totalIn_propagates_NaN :
    savingsStringPercent 0 0 = "(NaN% smaller)" ∧
    savingsStringPercent 0 5 = "(Infinity% larger)" ∧
    savingsString 0 0 = "0 bytes (NaN% smaller)" := by
  refine ⟨?_, ?_, ?_⟩ <;>
    · norm_num [savingsStringPercent, savingsString, jsSub, jsDiv, jsMulPos, jsToFixed2]
      decide

/-! ### Claim C6: the savings formula -/

/-- Claim C6: for positive `totalIn`, the summary reports
`(totalIn - totalOut) / totalIn * 100` to two decimal places as a
"smaller" percentage when `totalOut ≤ totalIn` and
`(totalOut - totalIn) / totalIn * 100` as a "larger" percentage otherwise;
in particular `1000 → 800` gives "(20.00% smaller)" and `800 → 1000` gives
"(25.00% larger)". -/
theorem savings_percent_formula :
    (∀ tin tout : Nat, 0 < tin → tout ≤ tin →
        savingsStringPercent tin tout =
          "(" ++ fixed2 ((((tin : ℚ) - (tout : ℚ)) / (tin : ℚ)) * 100) ++ "% smaller)") ∧
    (∀ tin tout : Nat, 0 < tin → tin < tout →
        savingsStringPercent tin tout =
          "(" ++ fixed2 ((((tout : ℚ) - (tin : ℚ)) / (tin : ℚ)) * 100) ++ "% larger)") ∧
    savingsStringPercent 1000 800 = "(20.00% smaller)" ∧
    savingsStringPercent 800 1000 = "(25.00% larger)" := by
  have hne : ∀ tin : Nat, 0 < tin → ((tin : ℚ) ≠ 0) := by
    intro tin h
    exact_mod_cast Nat.pos_iff_ne_zero.mp h
  refine ⟨?_, ?_, ?_, ?_⟩
  · intro tin tout h hle
    simp [savingsStringPercent, jsSub, jsDiv, jsMulPos, jsToFixed2, hle, hne tin h]
  · intro tin tout h hlt
    simp [savingsStringPercent, jsSub, jsDiv, jsMulPos, jsToFixed2, Nat.not_le.mpr hlt,
      Nat.not_le_of_lt hlt, hne tin h]
  · norm_num [savingsStringPercent, jsSub, jsDiv, jsMulPos, jsToFixed2, fixed2, pad2]
    decide
  · norm_num [savingsStringPercent, jsSub, jsDiv, jsMulPos, jsToFixed2, fixed2, pad2]
    decide

/-- Witness for C6 at `totalIn = 1000`, `totalOut = 800`. -/
theorem savings_percent_formula_witness :
    savingsStringPercent 1000 800 =
      "(" ++ fixed2 ((((1000 : ℚ) - (800 : ℚ)) / (1000 : ℚ)) * 100) ++ "% smaller)" :=
  savings_percent_formula.1 1000 800 (by decide) (by decide)

/-! ### Characterising the per-file loop -/

/-- The operations one successful loop iteration issues for file `f` at
index `i`, given the bytes read (`inB`) and the engine output (`outB`). -/
def blk (inB outB : String → Bytes) (pms : Option Nat) (n i : Nat) (f : String) : List Op :=
  [Op.report (100 / (n : ℚ)) (fileName f), Op.readOp i f, Op.engineOp i 1 StripMetadata.safe]
    ++ pauseList pms i
    ++ [Op.recordOp i (inB f).length (outB f).length, Op.writeIssue i f (outB f)]

/-- The state transformation of one successful loop iteration. -/
def stepState (inB outB : String → Bytes) (pms : Option Nat) (n i : Nat) (f : String)
    (st : BatchState) : BatchState :=
  { st with
      trace := st.trace ++ blk inB outB pms n i f,
      totalIn := st.totalIn + (inB f).length,
      totalOut := st.totalOut + (outB f).length }

lemma processLoop_step (env : Env) (inB outB : String → Bytes) (pms : Option Nat) (n : Nat)
    (f : String) (rest : List String) (i : Nat) (st : BatchState)
    (hrf : env.readF f = Except.ok (inB f))
    (hof : env.optimise (inB f) 1 StripMetadata.safe = Except.ok (outB f)) :
    processLoop env pms n (f :: rest) i st =
      processLoop env pms n rest (i + 1) (stepState inB outB pms n i f st) := by
  simp only [processLoop, hrf, hof]
  congr 1
  cases st
  simp [stepState, blk, pauseList, List.append_assoc]

/-- The operations issued by the loop over `files`, starting at index `i`,
when every read and engine call succeeds. -/
def blocksFrom (inB outB : String → Bytes) (pms : Option Nat) (n : Nat) :
    Nat → List String → List Op
  | _, [] => []
  | i, f :: rest => blk inB outB pms n i f ++ blocksFrom inB outB pms n (i + 1) rest

lemma processLoop_success (env : Env) (inB outB : String → Bytes) (pms : Option Nat) (n : Nat) :
    ∀ (files : List String) (i : Nat) (st : BatchState),
      (∀ f ∈ files, env.readF f = Except.ok (inB f)) →
      (∀ f ∈ files, env.optimise (inB f) 1 StripMetadata.safe = Except.ok (outB f)) →
      processLoop env pms n files i st =
        ⟨st.trace ++ blocksFrom inB outB pms n i files,
         st.totalIn + (files.map (fun f => (inB f).length)).sum,
         st.totalOut + (files.map (fun f => (outB f).length)).sum,
         st.err⟩ := by
  intro files
  induction files with
  | nil =>
    intro i st _ _
    cases st
    simp [processLoop, blocksFrom]
  | cons f rest ih =>
    intro i st hr ho
    have hrf : env.readF f = Except.ok (inB f) := hr f (List.mem_cons_self f rest)
    have hof : env.optimise (inB f) 1 StripMetadata.safe = Except.ok (outB f) :=
      ho f (List.mem_cons_self f rest)
    have hr' : ∀ g ∈ rest, env.readF g = Except.ok (inB g) := by
      intro g hg
      exact hr g (List.mem_cons_of_mem f hg)
    have ho' : ∀ g ∈ rest, env.optimise (inB g) 1 StripMetadata.safe = Except.ok (outB g) := by
      intro g hg
      exact ho g (List.mem_cons_of_mem f hg)
    rw [processLoop_step env inB outB pms n f rest i st hrf hof, ih (i + 1) _ hr' ho']
    cases st
    simp [stepState, blk, blocksFrom, pauseList, List.append_assoc, Nat.add_assoc]

lemma processLoop_fail (env : Env) (inB outB : String → Bytes) (pms : Option Nat) (n : Nat) :
    ∀ (files : List String) (k i : Nat) (st : BatchState) (fk : String) (e : String),
      files.get? k = some fk →
      (∀ j fj, j < k → files.get? j = some fj → env.readF fj = Except.ok (inB fj)) →
      (∀ j fj, j < k → files.get? j = some fj →
        env.optimise (inB fj) 1 StripMetadata.safe = Except.ok (outB fj)) →
      (env.readF fk = Except.error e ∨
        (env.readF fk = Except.ok (inB fk) ∧
          env.optimise (inB fk) 1 StripMetadata.safe = Except.error e)) →
      ∃ tail : List Op,
        processLoop env pms n files i st =
          ⟨st.trace ++ blocksFrom inB outB pms n i (files.take k) ++ tail,
           st.totalIn + ((files.take k).map (fun f => (inB f).length)).sum,
           st.totalOut + ((files.take k).map (fun f => (outB f).length)).sum,
           some e⟩ ∧
        (∀ j p, Op.readOp j p ∈ tail → j = i + k) ∧
        (∀ j lv s, Op.engineOp j lv s ∈ tail → j = i + k) ∧
        (∀ j p d, Op.writeIssue j p d ∉ tail) ∧
        (∀ j a b, Op.recordOp j a b ∉ tail) ∧
        (∀ m, Op.info m ∉ tail) := by
  intro files
  induction files with
  | nil =>
    intro k i st fk e hget
    simp at hget
  | cons f rest ih =>
    intro k i st fk e hget hr ho hfail
    cases k with
    | zero =>
      have hfk : f = fk := by
        simpa using hget
      subst hfk
      rcases hfail with hre | ⟨hrok, hoe⟩
      · refine ⟨[Op.report (100 / (n : ℚ)) (fileName f), Op.readOp i f], ?_, ?_, ?_, ?_, ?_, ?_⟩
        · simp only [processLoop, hre]
          cases st
          simp [blocksFrom]
        · intro j p hj
          simp at hj
          omega
        · intro j lv s hj
          simp at hj
        · intro j p d hj
          simp at hj
        · intro j a b hj
          simp at hj
        · intro m hj
          simp at hj
      · refine ⟨[Op.report (100 / (n : ℚ)) (fileName f), Op.readOp i f,
          Op.engineOp i 1 StripMetadata.safe], ?_, ?_, ?_, ?_, ?_, ?_⟩
        · simp only [processLoop, hrok, hoe]
          cases st
          simp [blocksFrom]
        · intro j p hj
          simp at hj
          omega
        · intro j lv s hj
          simp at hj
          omega
        · intro j p d hj
          simp at hj
        · intro j a b hj
          simp at hj
        · intro m hj
          simp at hj
    | succ k' =>
      have hrf : env.readF f = Except.ok (inB f) := by
        refine hr 0 f (Nat.succ_pos k') ?_
        rfl
      have hof : env.optimise (inB f) 1 StripMetadata.safe = Except.ok (outB f) := by
        refine ho 0 f (Nat.succ_pos k') ?_
        rfl
      have hget' : rest.get? k' = some fk := by
        simpa using hget
      have hr' : ∀ j fj, j < k' → rest.get? j = some fj → env.readF fj = Except.ok (inB fj) := by
        intro j fj hj hg
        refine hr (j + 1) fj (Nat.succ_lt_succ hj) ?_
        simpa using hg
      have ho' : ∀ j fj, j < k' → rest.get? j = some fj →
          env.optimise (inB fj) 1 StripMetadata.safe = Except.ok (outB fj) := by
        intro j fj hj hg
        refine ho (j + 1) fj (Nat.succ_lt_succ hj) ?_
        simpa using hg
      obtain ⟨tail, heq, hrd, hen, hwr, hrc, hin⟩ :=
        ih k' (i + 1) (stepState inB outB pms n i f st) fk e hget' hr' ho' hfail
      refine ⟨tail, ?_, ?_, ?_, hwr, hrc, hin⟩
      · rw [processLoop_step env inB outB pms n f rest i st hrf hof, heq]
        cases st
        simp [stepState, blk, blocksFrom, pauseList, List.append_assoc, Nat.add_assoc]
      · intro j p hj
        have := hrd j p hj
        omega
      · intro j lv s hj
        have := hen j lv s hj
        omega

lemma mem_pauseList {o : Op} {pms : Option Nat} {i : Nat} (h : o ∈ pauseList pms i) :
    ∃ ms, o = Op.pauseOp i ms ∧ pms = some ms := by
  cases pms with
  | none => simp [pauseList] at h
  | some ms =>
    refine ⟨ms, ?_, rfl⟩
    simpa [pauseList] using h

lemma mem_blk {o : Op} {inB outB : String → Bytes} {pms : Option Nat} {n i : Nat} {f : String}
    (h : o ∈ blk inB outB pms n i f) :
    o = Op.report (100 / (n : ℚ)) (fileName f) ∨ o = Op.readOp i f ∨
    o = Op.engineOp i 1 StripMetadata.safe ∨ (∃ ms, o = Op.pauseOp i ms ∧ pms = some ms) ∨
    o = Op.recordOp i (inB f).length (outB f).length ∨ o = Op.writeIssue i f (outB f) := by
  simp only [blk, List.mem_append, List.mem_cons, List.mem_singleton,
    List.not_mem_nil, or_false] at h
  rcases h with (h | h) | h | h
  · rcases h with h | h | h
    · exact Or.inl h
    · exact Or.inr (Or.inl h)
    · exact Or.inr (Or.inr (Or.inl h))
  · exact Or.inr (Or.inr (Or.inr (Or.inl (mem_pauseList h))))
  · exact Or.inr (Or.inr (Or.inr (Or.inr (Or.inl h))))
  · exact Or.inr (Or.inr (Or.inr (Or.inr (Or.inr h))))

lemma mem_blocksFrom_idx {inB outB : String → Bytes} {pms : Option Nat} {n : Nat} :
    ∀ (files : List String) (i : Nat) (o : Op), o ∈ blocksFrom inB outB pms n i files →
      ∃ j f, i ≤ j ∧ j < i + files.length ∧ files.get? (j - i) = some f ∧
        o ∈ blk inB outB pms n j f := by
  intro files
  induction files with
  | nil =>
    intro i o h
    simp [blocksFrom] at h
  | cons f rest ih =>
    intro i o h
    rcases List.mem_append.mp h with h | h
    · refine ⟨i, f, Nat.le_refl i, ?_, ?_, h⟩
      · simp only [List.length_cons]
        omega
      · simp [Nat.sub_self]
    · obtain ⟨j, g, hij, hlt, hget, hmem⟩ := ih (i + 1) o h
      refine ⟨j, g, Nat.le_of_succ_le hij, by simpa [Nat.add_assoc, Nat.add_comm 1] using hlt,
        ?_, hmem⟩
      have hji : j - i = (j - (i + 1)) + 1 := by omega
      rw [hji]
      simpa using hget

/-- Ordered two-block decomposition: consecutive files `j` and `j + 1`
occupy adjacent blocks of the success trace. -/
lemma blocksFrom_decomp2 {inB outB : String → Bytes} {pms : Option Nat} {n : Nat} :
    ∀ (files : List String) (i j : Nat) (fj fj1 : String),
      files.get? j = some fj → files.get? (j + 1) = some fj1 →
      ∃ l₁ l₂, blocksFrom inB outB pms n i files =
        l₁ ++ blk inB outB pms n (i + j) fj ++ blk inB outB pms n (i + j + 1) fj1 ++ l₂ := by
  intro files
  induction files with
  | nil =>
    intro i j fj fj1 hj
    simp at hj
  | cons f rest ih =>
    intro i j fj fj1 hj hj1
    cases j with
    | zero =>
      have hf : f = fj := by
        simpa using hj
      subst hf
      have : rest.get? 0 = some fj1 := by
        simpa using hj1
      cases rest with
      | nil => simp at this
      | cons g rest' =>
        have hg : g = fj1 := by
          simpa using this
        subst hg
        exact ⟨[], blocksFrom inB outB pms n (i + 2) rest', by simp [blocksFrom, List.append_assoc]⟩
    | succ j' =>
      have hj' : rest.get? j' = some fj := by
        simpa using hj
      have hj1' : rest.get? (j' + 1) = some fj1 := by
        simpa using hj1
      obtain ⟨l₁, l₂, hdec⟩ := ih (i + 1) j' fj fj1 hj' hj1'
      refine ⟨blk inB outB pms n i f ++ l₁, l₂, ?_⟩
      have h1 : i + 1 + j' = i + (j' + 1) := by omega
      rw [blocksFrom, hdec, h1]
      simp [List.append_assoc]

/-- Single-block decomposition of the success trace. -/
lemma blocksFrom_decomp1 {inB outB : String → Bytes} {pms : Option Nat} {n : Nat} :
    ∀ (files : List String) (i j : Nat) (fj : String),
      files.get? j = some fj →
      ∃ l₁ l₂, blocksFrom inB outB pms n i files =
        l₁ ++ blk inB outB pms n (i + j) fj ++ l₂ := by
  intro files
  induction files with
  | nil =>
    intro i j fj hj
    simp at hj
  | cons f rest ih =>
    intro i j fj hj
    cases j with
    | zero =>
      have hf : f = fj := by
        simpa using hj
      subst hf
      exact ⟨[], blocksFrom inB outB pms n (i + 1) rest, by simp [blocksFrom]⟩
    | succ j' =>
      have hj' : rest.get? j' = some fj := by
        simpa using hj
      obtain ⟨l₁, l₂, hdec⟩ := ih (i + 1) j' fj hj'
      refine ⟨blk inB outB pms n i f ++ l₁, l₂, ?_⟩
      have h1 : i + 1 + j' = i + (j' + 1) := by omega
      rw [blocksFrom, hdec, h1]
      simp [List.append_assoc]

/-- Generic order-preserving transfer: a three-part decomposition of a
sublist yields one of the superlist, keeping everything between the two
pivots between them. -/
lemma sublist_mid_split {α : Type} (b₁ b₂ b₃ : List α) (x y : α) (tr : List α)
    (h : List.Sublist (b₁ ++ x :: (b₂ ++ y :: b₃)) tr) :
    ∃ m₁ m₂ m₃, tr = m₁ ++ x :: (m₂ ++ y :: m₃) ∧ ∀ o ∈ b₂, o ∈ m₂ := by
  obtain ⟨r₁, r₂, hr, _, hx⟩ := List.append_sublist_iff.mp h
  obtain ⟨s₁, s₂, hs, hxs, hrest⟩ := List.cons_sublist_iff.mp hx
  obtain ⟨u₁, u₂, hu, hb₂, hy⟩ := List.append_sublist_iff.mp hrest
  obtain ⟨v₁, v₂, hv, hyv, _⟩ := List.cons_sublist_iff.mp hy
  obtain ⟨p₁, p₂, hp⟩ := List.append_of_mem hxs
  obtain ⟨q₁, q₂, hq⟩ := List.append_of_mem hyv
  refine ⟨r₁ ++ p₁, p₂ ++ u₁ ++ q₁, q₂ ++ v₂, ?_, ?_⟩
  · rw [hr, hs, hu, hv, hp, hq]
    simp [List.append_assoc]
  · intro o ho
    have : o ∈ u₁ := hb₂.subset ho
    simp [this]

/-- Every operation any loop run appends has one of the shapes issued by
the loop body; engine calls always carry level 1 / strip-safe, and pause
operations exist only when a pause is configured. -/
lemma processLoop_trace_shape (env : Env) (pms : Option Nat) (n : Nat) :
    ∀ (files : List String) (i : Nat) (st : BatchState) (o : Op),
      o ∈ (processLoop env pms n files i st).trace →
      o ∈ st.trace ∨ (∃ inc m, o = Op.report inc m) ∨ (∃ j p, o = Op.readOp j p) ∨
      (∃ j, o = Op.engineOp j 1 StripMetadata.safe) ∨
      (∃ j ms, o = Op.pauseOp j ms ∧ pms = some ms) ∨
      (∃ j a b, o = Op.recordOp j a b) ∨ (∃ j p d, o = Op.writeIssue j p d) := by
  intro files
  induction files with
  | nil =>
    intro i st o h
    exact Or.inl h
  | cons f rest ih =>
    intro i st o h
    cases hre : env.readF f with
    | error e =>
      simp only [processLoop, hre, List.mem_append, List.mem_cons, List.not_mem_nil,
        or_false] at h
      rcases h with (h | h) | h
      · exact Or.inl h
      · exact Or.inr (Or.inl ⟨_, _, h⟩)
      · exact Or.inr (Or.inr (Or.inl ⟨_, _, h⟩))
    | ok inData =>
      cases hop : env.optimise inData 1 StripMetadata.safe with
      | error e =>
        simp only [processLoop, hre, hop, List.mem_append, List.mem_cons, List.not_mem_nil,
          or_false] at h
        rcases h with ((h | h) | h) | h
        · exact Or.inl h
        · exact Or.inr (Or.inl ⟨_, _, h⟩)
        · exact Or.inr (Or.inr (Or.inl ⟨_, _, h⟩))
        · exact Or.inr (Or.inr (Or.inr (Or.inl ⟨_, h⟩)))
      | ok outData =>
        simp only [processLoop, hre, hop] at h
        rcases ih (i + 1) _ o h with h' | h' | h' | h' | h' | h'
        · simp only [List.mem_append, List.mem_cons, List.not_mem_nil, or_false] at h'
          rcases h' with ((((h' | h') | h') | h') | h') | h' | h'
          · exact Or.inl h'
          · exact Or.inr (Or.inl ⟨_, _, h'⟩)
          · exact Or.inr (Or.inr (Or.inl ⟨_, _, h'⟩))
          · exact Or.inr (Or.inr (Or.inr (Or.inl ⟨_, h'⟩)))
          · obtain ⟨ms, hms, hpms⟩ := mem_pauseList h'
            exact Or.inr (Or.inr (Or.inr (Or.inr (Or.inl ⟨_, ms, hms, hpms⟩))))
          · exact Or.inr (Or.inr (Or.inr (Or.inr (Or.inr (Or.inl ⟨_, _, _, h'⟩)))))
          · exact Or.inr (Or.inr (Or.inr (Or.inr (Or.inr (Or.inr ⟨_, _, _, h'⟩)))))
        · exact Or.inr (Or.inl h')
        · exact Or.inr (Or.inr (Or.inl h'))
        · exact Or.inr (Or.inr (Or.inr (Or.inl h')))
        · exact Or.inr (Or.inr (Or.inr (Or.inr (Or.inl h'))))
        · exact Or.inr (Or.inr (Or.inr (Or.inr (Or.inr h'))))

lemma blocksFrom_filter_report (inB outB : String → Bytes) (pms : Option Nat) (n : Nat) :
    ∀ (files : List String) (i : Nat),
      (blocksFrom inB outB pms n i files).filter isReport =
        files.map (fun f => Op.report (100 / (n : ℚ)) (fileName f)) := by
  intro files
  induction files with
  | nil =>
    intro i
    simp [blocksFrom]
  | cons f rest ih =>
    intro i
    rw [blocksFrom, List.filter_append, ih]
    cases pms <;> simp [blk, pauseList, isReport]

lemma runFolder_success (env : Env) (files : List String) (inB outB : String → Bytes)
    (hr : ∀ f ∈ files, env.readF f = Except.ok (inB f))
    (ho : ∀ f ∈ files, env.optimise (inB f) 1 StripMetadata.safe = Except.ok (outB f)) :
    runFolder env files =
      ⟨Op.report 0 "Starting..." :: blocksFrom inB outB none files.length 0 files,
       (files.map (fun f => (inB f).length)).sum,
       (files.map (fun f => (outB f).length)).sum, none⟩ := by
  unfold runFolder
  rw [processLoop_success env inB outB none files.length files 0 _ hr ho]
  simp

lemma runGitLoop_success (env : Env) (files : List String) (inB outB : String → Bytes)
    (hr : ∀ f ∈ files, env.readF f = Except.ok (inB f))
    (ho : ∀ f ∈ files, env.optimise (inB f) 1 StripMetadata.safe = Except.ok (outB f)) :
    runGitLoop env files =
      ⟨Op.report 0 "Starting..." :: blocksFrom inB outB (some 2000) files.length 0 files,
       (files.map (fun f => (inB f).length)).sum,
       (files.map (fun f => (outB f).length)).sum, none⟩ := by
  unfold runGitLoop
  rw [processLoop_success env inB outB (some 2000) files.length files 0 _ hr ho]
  simp

/-! ### Concrete demonstration data -/

/-- Demo input bytes: every file reads as two bytes. -/
def demoIn : String → Bytes := fun _ => [0, 0]

/-- Demo engine output: always one byte. -/
def demoOut : String → Bytes := fun _ => [0]

/-- A fully succeeding environment. -/
def demoEnv : Env :=
  { readF := fun _ => Except.ok [0, 0],
    optimise := fun _ _ _ => Except.ok [0],
    write := fun _ _ => Except.ok () }

/-- An environment whose engine call always fails with "boom". -/
def envEngineFail : Env :=
  { readF := fun _ => Except.ok [0, 0],
    optimise := fun _ _ _ => Except.error "boom",
    write := fun _ _ => Except.ok () }

/-- An environment whose writes always fail (reads and engine succeed). -/
def envWriteFail : Env :=
  { readF := fun _ => Except.ok [0, 0],
    optimise := fun _ _ _ => Except.ok [0],
    write := fun _ _ => Except.error "disk full" }

/-- Boolean contiguous-sublist test on character lists. -/
def listInfix (sub l : List Char) : Bool :=
  (List.range (l.length + 1)).any (fun i => decide ((l.drop i).take sub.length = sub))

/-- Does `s` contain `sub` as a substring? -/
def strContains (s sub : String) : Bool :=
  listInfix sub.data s.data

/-! ### Claim C9: exact accumulation -/

/-- Claim C9: for every completed batch (folder and change-set mode), the
accumulator totals are exactly the sums of the per-file input and output
byte counts. -/
theorem accumulation_exact (env : Env) (files : List String) (inB outB : String → Bytes)
    (hr : ∀ f ∈ files, env.readF f = Except.ok (inB f))
    (ho : ∀ f ∈ files, env.optimise (inB f) 1 StripMetadata.safe = Except.ok (outB f)) :
    (runFolder env files).totalIn = (files.map (fun f => (inB f).length)).sum ∧
    (runFolder env files).totalOut = (files.map (fun f => (outB f).length)).sum ∧
    (runGitLoop env files).totalIn = (files.map (fun f => (inB f).length)).sum ∧
    (runGitLoop env files).totalOut = (files.map (fun f => (outB f).length)).sum := by
  rw [runFolder_success env files inB outB hr ho, runGitLoop_success env files inB outB hr ho]
  exact ⟨rfl, rfl, rfl, rfl⟩

/-- Witness for C9 on a concrete two-file batch. -/
theorem accumulation_exact_witness :
    (runFolder demoEnv ["a.png", "b.png"]).totalIn =
      (["a.png", "b.png"].map (fun f => (demoIn f).length)).sum :=
  (accumulation_exact demoEnv ["a.png", "b.png"] demoIn demoOut
    (fun _ _ => rfl) (fun _ _ => rfl)).1

/-! ### Claim C7: progress reporting -/

/-- Claim C7: each batch mode first reports 0% "Starting...", then issues
exactly one notification per file, in order, carrying the file's name and
an increment of `100 / fileCount`; every per-file notification immediately
precedes that file's read. -/
theorem progress_reports (env : Env) (files : List String) (inB outB : String → Bytes)
    (hr : ∀ f ∈ files, env.readF f = Except.ok (inB f))
    (ho : ∀ f ∈ files, env.optimise (inB f) 1 StripMetadata.safe = Except.ok (outB f)) :
    ((runFolder env files).trace.filter isReport =
      Op.report 0 "Starting..." ::
        files.map (fun f => Op.report (100 / (files.length : ℚ)) (fileName f))) ∧
    ((runFolder env files).trace.filter isReport).length = files.length + 1 ∧
    (∀ j fj, files.get? j = some fj → ∃ l₁ l₂, (runFolder env files).trace =
        l₁ ++ Op.report (100 / (files.length : ℚ)) (fileName fj) :: Op.readOp j fj :: l₂) ∧
    ((runGitLoop env files).trace.filter isReport =
      Op.report 0 "Starting..." ::
        files.map (fun f => Op.report (100 / (files.length : ℚ)) (fileName f))) ∧
    ((runGitLoop env files).trace.filter isReport).length = files.length + 1 ∧
    (∀ j fj, files.get? j = some fj → ∃ l₁ l₂, (runGitLoop env files).trace =
        l₁ ++ Op.report (100 / (files.length : ℚ)) (fileName fj) :: Op.readOp j fj :: l₂) := by
  have hcf := runFolder_success env files inB outB hr ho
  have hcg := runGitLoop_success env files inB outB hr ho
  refine ⟨?_, ?_, ?_, ?_, ?_, ?_⟩
  · rw [hcf]
    simp [isReport, blocksFrom_filter_report]
  · rw [hcf]
    simp [isReport, blocksFrom_filter_report]
  · intro j fj hj
    obtain ⟨l₁, l₂, hdec⟩ :=
      @blocksFrom_decomp1 inB outB none files.length files 0 j fj hj
    refine ⟨Op.report 0 "Starting..." :: l₁,
      Op.engineOp j 1 StripMetadata.safe ::
        Op.recordOp j (inB fj).length (outB fj).length ::
          Op.writeIssue j fj (outB fj) :: l₂, ?_⟩
    rw [hcf]
    simp only [hdec, Nat.zero_add]
    simp [blk, pauseList, List.append_assoc]
  · rw [hcg]
    simp [isReport, blocksFrom_filter_report]
  · rw [hcg]
    simp [isReport, blocksFrom_filter_report]
  · intro j fj hj
    obtain ⟨l₁, l₂, hdec⟩ :=
      @blocksFrom_decomp1 inB outB (some 2000) files.length files 0 j fj hj
    refine ⟨Op.report 0 "Starting..." :: l₁,
      Op.engineOp j 1 StripMetadata.safe :: Op.pauseOp j 2000 ::
        Op.recordOp j (inB fj).length (outB fj).length ::
          Op.writeIssue j fj (outB fj) :: l₂, ?_⟩
    rw [hcg]
    simp only [hdec, Nat.zero_add]
    simp [blk, pauseList, List.append_assoc]

/-- Witness for C7 on a concrete two-file batch. -/
theorem progress_reports_witness :
    (runFolder demoEnv ["a.png", "b.png"]).trace.filter isReport =
      Op.report 0 "Starting..." ::
        ["a.png", "b.png"].map
          (fun f => Op.report (100 / ((["a.png", "b.png"] : List String).length : ℚ)) (fileName f)) :=
  (progress_reports demoEnv ["a.png", "b.png"] demoIn demoOut
    (fun _ _ => rfl) (fun _ _ => rfl)).1

lemma mem_runFolderCmd {o : Op} {env : Env} {files : List String}
    (h : o ∈ (runFolderCmd env files).trace) :
    o ∈ (runFolder env files).trace ∨ ∃ m, o = Op.info m := by
  simp only [runFolderCmd] at h
  cases herr : (runFolder env files).err with
  | none =>
    rw [herr] at h
    simp only [List.mem_append, List.mem_singleton] at h
    rcases h with h | h
    · exact Or.inl h
    · exact Or.inr ⟨_, h⟩
  | some e =>
    rw [herr] at h
    exact Or.inl h

lemma mem_runGitCmd {o : Op} {env : Env} {files : List String}
    (h : o ∈ (runGitCmd env files).trace) :
    o ∈ (runGitLoop env files).trace ∨ ∃ m, o = Op.info m := by
  simp only [runGitCmd] at h
  cases herr : (runGitLoop env files).err with
  | none =>
    rw [herr] at h
    simp only [List.mem_append, List.mem_singleton] at h
    rcases h with h | h
    · exact Or.inl h
    · exact Or.inr ⟨_, h⟩
  | some e =>
    rw [herr] at h
    exact Or.inl h

lemma loop_engine_mem {env : Env} {pms : Option Nat} {n : Nat} {files : List String}
    {j lv : Nat} {s : StripMetadata}
    (h : Op.engineOp j lv s ∈
      (processLoop env pms n files 0 ⟨[Op.report 0 "Starting..."], 0, 0, none⟩).trace) :
    lv = 1 ∧ s = StripMetadata.safe := by
  rcases processLoop_trace_shape env pms n files 0 _ _ h with h' | h' | h' | h' | h' | h' | h'
  · simp at h'
  · obtain ⟨inc, m, heq⟩ := h'
    simp at heq
  · obtain ⟨j', p, heq⟩ := h'
    simp at heq
  · obtain ⟨j', heq⟩ := h'
    simp only [Op.engineOp.injEq] at heq
    exact ⟨heq.2.1, heq.2.2⟩
  · obtain ⟨j', ms, heq, _⟩ := h'
    simp at heq
  · obtain ⟨j', a, b, heq⟩ := h'
    simp at heq
  · obtain ⟨j', p, d, heq⟩ := h'
    simp at heq

lemma loop_pause_mem {env : Env} {n : Nat} {files : List String} {j ms : Nat}
    (h : Op.pauseOp j ms ∈
      (processLoop env none n files 0 ⟨[Op.report 0 "Starting..."], 0, 0, none⟩).trace) :
    False := by
  rcases processLoop_trace_shape env none n files 0 _ _ h with h' | h' | h' | h' | h' | h' | h'
  · simp at h'
  · obtain ⟨inc, m, heq⟩ := h'
    simp at heq
  · obtain ⟨j', p, heq⟩ := h'
    simp at heq
  · obtain ⟨j', heq⟩ := h'
    simp at heq
  · obtain ⟨j', ms', heq, hpms⟩ := h'
    cases hpms
  · obtain ⟨j', a, b, heq⟩ := h'
    simp at heq
  · obtain ⟨j', p, d, heq⟩ := h'
    simp at heq

/-! ### Claim C8: engine options -/

/-- Claim C8: every engine call of the folder and change-set batches uses
compression level 1, the single-file command uses level 2, and every call
in every mode uses the strip-safe metadata policy. -/
theorem engine_options (env : Env) (files : List String) (p : String) (j lv : Nat)
    (s : StripMetadata) :
    (Op.engineOp j lv s ∈ (runFolderCmd env files).trace →
      lv = 1 ∧ s = StripMetadata.safe) ∧
    (Op.engineOp j lv s ∈ (runGitCmd env files).trace →
      lv = 1 ∧ s = StripMetadata.safe) ∧
    (Op.engineOp j lv s ∈ (runSingle env p).trace →
      lv = 2 ∧ s = StripMetadata.safe) := by
  refine ⟨?_, ?_, ?_⟩
  · intro h
    rcases mem_runFolderCmd h with h | ⟨m, heq⟩
    · exact loop_engine_mem h
    · simp at heq
  · intro h
    rcases mem_runGitCmd h with h | ⟨m, heq⟩
    · exact loop_engine_mem h
    · simp at heq
  · intro h
    cases hre : env.readF p with
    | error e =>
      simp [runSingle, hre] at h
    | ok inData =>
      cases hop : env.optimise inData 2 StripMetadata.safe with
      | error e =>
        simp only [runSingle, hre, hop] at h
        simp only [List.mem_append, List.mem_cons, List.not_mem_nil, or_false,
          List.mem_singleton] at h
        rcases h with h | h | h
        · simp at h
        · simp at h
        · simp only [Op.engineOp.injEq] at h
          exact ⟨h.2.1, h.2.2⟩
      | ok outData =>
        simp only [runSingle, hre, hop] at h
        simp only [List.mem_append, List.mem_cons, List.not_mem_nil, or_false,
          List.mem_singleton] at h
        rcases h with h | h | h | h | h | h
        · simp at h
        · simp at h
        · simp only [Op.engineOp.injEq] at h
          exact ⟨h.2.1, h.2.2⟩
        · simp at h
        · simp at h
        · simp at h

/-- Witness for C8: a concrete engine call of each mode. -/
theorem engine_options_witness :
    Op.engineOp 0 1 StripMetadata.safe ∈ (runFolderCmd demoEnv ["a.png"]).trace ∧
    (1 = 1 ∧ StripMetadata.safe = StripMetadata.safe) :=
  ⟨by decide,
   (engine_options demoEnv ["a.png"] "a.png" 0 1 StripMetadata.safe).1 (by decide)⟩

/-! ### Claim C10: the change-set pause -/

/-- Claim C10: in change-set mode every engine call (including the last
file's) is followed by the fixed 2000 ms pause before the file's sizes are
recorded and its write is issued; folder mode and single-file mode never
pause. -/
theorem git_pause_after_engine (env : Env) (files : List String) (inB outB : String → Bytes)
    (hr : ∀ f ∈ files, env.readF f = Except.ok (inB f))
    (ho : ∀ f ∈ files, env.optimise (inB f) 1 StripMetadata.safe = Except.ok (outB f)) :
    (∀ j fj, files.get? j = some fj → ∃ l₁ l₂, (runGitLoop env files).trace =
        l₁ ++ Op.engineOp j 1 StripMetadata.safe :: Op.pauseOp j 2000 ::
          Op.recordOp j (inB fj).length (outB fj).length ::
            Op.writeIssue j fj (outB fj) :: l₂) ∧
    (∀ (env2 : Env) (files2 : List String) (j ms : Nat),
      Op.pauseOp j ms ∉ (runFolderCmd env2 files2).trace) ∧
    (∀ (env2 : Env) (p : String) (j ms : Nat),
      Op.pauseOp j ms ∉ (runSingle env2 p).trace) := by
  refine ⟨?_, ?_, ?_⟩
  · intro j fj hj
    obtain ⟨l₁, l₂, hdec⟩ :=
      @blocksFrom_decomp1 inB outB (some 2000) files.length files 0 j fj hj
    refine ⟨Op.report 0 "Starting..." :: l₁ ++
        [Op.report (100 / (files.length : ℚ)) (fileName fj), Op.readOp j fj], l₂, ?_⟩
    rw [runGitLoop_success env files inB outB hr ho]
    simp only [hdec, Nat.zero_add]
    simp [blk, pauseList, List.append_assoc]
  · intro env2 files2 j ms h
    rcases mem_runFolderCmd h with h | ⟨m, heq⟩
    · exact loop_pause_mem h
    · simp at heq
  · intro env2 p j ms h
    cases hre : env2.readF p with
    | error e =>
      simp [runSingle, hre] at h
    | ok inData =>
      cases hop : env2.optimise inData 2 StripMetadata.safe with
      | error e =>
        simp [runSingle, hre, hop] at h
      | ok outData =>
        simp [runSingle, hre, hop] at h

/-- Witness for C10 on a concrete one-file change-set batch. -/
theorem git_pause_after_engine_witness :
    ∃ l₁ l₂, (runGitLoop demoEnv ["a.png"]).trace =
      l₁ ++ Op.engineOp 0 1 StripMetadata.safe :: Op.pauseOp 0 2000 ::
        Op.recordOp 0 (demoIn "a.png").length (demoOut "a.png").length ::
          Op.writeIssue 0 "a.png" (demoOut "a.png") :: l₂ :=
  (git_pause_after_engine demoEnv ["a.png"] demoIn demoOut
    (fun _ _ => rfl) (fun _ _ => rfl)).1 0 "a.png" rfl

/-- The loop never consults the result of a write: the write capability is
irrelevant to the whole batch computation (the promise is dropped). -/
lemma processLoop_write_irrel (r : String → Except String Bytes)
    (oo : Bytes → Nat → StripMetadata → Except String Bytes)
    (w w' : String → Bytes → Except String Unit) (pms : Option Nat) (n : Nat) :
    ∀ (files : List String) (i : Nat) (st : BatchState),
      processLoop ⟨r, oo, w⟩ pms n files i st = processLoop ⟨r, oo, w'⟩ pms n files i st := by
  intro files
  induction files with
  | nil =>
    intro i st
    rfl
  | cons f rest ih =>
    intro i st
    cases hre : r f with
    | error e => simp [processLoop, hre]
    | ok inData =>
      cases hop : oo inData 1 StripMetadata.safe with
      | error e => simp [processLoop, hre, hop]
      | ok outData =>
        simp only [processLoop, hre, hop]
        exact ih (i + 1) _

lemma runFolderCmd_write_irrel (env : Env) (w : String → Bytes → Except String Unit)
    (files : List String) :
    runFolderCmd { env with write := w } files = runFolderCmd env files := by
  cases env with
  | mk r oo w0 =>
    unfold runFolderCmd runFolder
    rw [processLoop_write_irrel r oo w w0 none files.length files 0 _]

/-! ### Claim C2: the failure policy -/

/-- The abort facts, established once for the generic loop (any pause
configuration): underlying error propagated, partial totals, no operation
on files after the failing one, no write for the failing file itself, no
summary message. -/
lemma processLoop_fail_facts (env : Env) (pms : Option Nat) (files : List String)
    (inB outB : String → Bytes) (k : Nat) (fk : String) (e : String)
    (hk : files.get? k = some fk)
    (hr : ∀ j fj, j < k → files.get? j = some fj → env.readF fj = Except.ok (inB fj))
    (ho : ∀ j fj, j < k → files.get? j = some fj →
      env.optimise (inB fj) 1 StripMetadata.safe = Except.ok (outB fj))
    (hfail : env.readF fk = Except.error e ∨
      (env.readF fk = Except.ok (inB fk) ∧
        env.optimise (inB fk) 1 StripMetadata.safe = Except.error e)) :
    (processLoop env pms files.length files 0
        ⟨[Op.report 0 "Starting..."], 0, 0, none⟩).err = some e ∧
    (processLoop env pms files.length files 0
        ⟨[Op.report 0 "Starting..."], 0, 0, none⟩).totalIn =
      ((files.take k).map (fun f => (inB f).length)).sum ∧
    (processLoop env pms files.length files 0
        ⟨[Op.report 0 "Starting..."], 0, 0, none⟩).totalOut =
      ((files.take k).map (fun f => (outB f).length)).sum ∧
    (∀ j p, Op.readOp j p ∈
      (processLoop env pms files.length files 0
        ⟨[Op.report 0 "Starting..."], 0, 0, none⟩).trace → j ≤ k) ∧
    (∀ j lv s, Op.engineOp j lv s ∈
      (processLoop env pms files.length files 0
        ⟨[Op.report 0 "Starting..."], 0, 0, none⟩).trace → j ≤ k) ∧
    (∀ j p d, Op.writeIssue j p d ∈
      (processLoop env pms files.length files 0
        ⟨[Op.report 0 "Starting..."], 0, 0, none⟩).trace → j < k) ∧
    (∀ m, Op.info m ∉
      (processLoop env pms files.length files 0
        ⟨[Op.report 0 "Starting..."], 0, 0, none⟩).trace) := by
  obtain ⟨tail, heq, hrd, hen, hwr, hrc, hin⟩ :=
    processLoop_fail env inB outB pms files.length files k 0
      ⟨[Op.report 0 "Starting..."], 0, 0, none⟩ fk e hk hr ho hfail
  have hfull : processLoop env pms files.length files 0
      ⟨[Op.report 0 "Starting..."], 0, 0, none⟩ =
      ⟨[Op.report 0 "Starting..."] ++
          blocksFrom inB outB pms files.length 0 (files.take k) ++ tail,
       ((files.take k).map (fun f => (inB f).length)).sum,
       ((files.take k).map (fun f => (outB f).length)).sum,
       some e⟩ := by
    rw [heq]
    simp
  have htk : (files.take k).length ≤ k := by
    simp
  refine ⟨?_, ?_, ?_, ?_, ?_, ?_, ?_⟩
  · rw [hfull]
  · rw [hfull]
  · rw [hfull]
  · intro j p h
    rw [hfull] at h
    simp only [List.append_assoc, List.mem_append, List.mem_singleton] at h
    rcases h with h | h | h
    · simp at h
    · obtain ⟨j', f', hij, hlt, _, hblk⟩ := mem_blocksFrom_idx _ _ _ h
      rcases mem_blk hblk with h' | h' | h' | ⟨ms, h', _⟩ | h' | h'
      · simp at h'
      · simp only [Op.readOp.injEq] at h'
        omega
      · simp at h'
      · simp at h'
      · simp at h'
      · simp at h'
    · have := hrd j p h
      omega
  · intro j lv s h
    rw [hfull] at h
    simp only [List.append_assoc, List.mem_append, List.mem_singleton] at h
    rcases h with h | h | h
    · simp at h
    · obtain ⟨j', f', hij, hlt, _, hblk⟩ := mem_blocksFrom_idx _ _ _ h
      rcases mem_blk hblk with h' | h' | h' | ⟨ms, h', _⟩ | h' | h'
      · simp at h'
      · simp at h'
      · simp only [Op.engineOp.injEq] at h'
        omega
      · simp at h'
      · simp at h'
      · simp at h'
    · have := hen j lv s h
      omega
  · intro j p d h
    rw [hfull] at h
    simp only [List.append_assoc, List.mem_append, List.mem_singleton] at h
    rcases h with h | h | h
    · simp at h
    · obtain ⟨j', f', hij, hlt, _, hblk⟩ := mem_blocksFrom_idx _ _ _ h
      rcases mem_blk hblk with h' | h' | h' | ⟨ms, h', _⟩ | h' | h'
      · simp at h'
      · simp at h'
      · simp at h'
      · simp at h'
      · simp at h'
      · simp only [Op.writeIssue.injEq] at h'
        omega
    · exact absurd h (hwr j p d)
  · intro m h
    rw [hfull] at h
    simp only [List.append_assoc, List.mem_append, List.mem_singleton] at h
    rcases h with h | h | h
    · simp at h
    · obtain ⟨j', f', hij, hlt, _, hblk⟩ := mem_blocksFrom_idx _ _ _ h
      rcases mem_blk hblk with h' | h' | h' | ⟨ms, h', _⟩ | h' | h'
      · simp at h'
      · simp at h'
      · simp at h'
      · simp at h'
      · simp at h'
      · simp at h'
    · exact absurd h (hin m)

/-- The change-set command is equally unaffected by the write capability. -/
lemma runGitCmd_write_irrel (env : Env) (w : String → Bytes → Except String Unit)
    (files : List String) :
    runGitCmd { env with write := w } files = runGitCmd env files := by
  cases env with
  | mk r oo w0 =>
    unfold runGitCmd runGitLoop
    rw [processLoop_write_irrel r oo w w0 (some 2000) files.length files 0 _]

/-- Claim C2 (amended): in both batch modes, a read or engine failure on
file `k` aborts the batch - later files are neither read, nor optimised,
nor written, the accumulator holds exactly the totals of the files before
`k`, no summary message is shown - but the surfaced error is the
underlying error unchanged (no aggregate message is constructed), and a
write failure cannot abort anything because the write result is
discarded. -/
theorem batch_abort_on_read_or_engine_failure (env : Env) (files : List String)
    (inB outB : String → Bytes) (k : Nat) (fk : String) (e : String)
    (hk : files.get? k = some fk)
    (hr : ∀ j fj, j < k → files.get? j = some fj → env.readF fj = Except.ok (inB fj))
    (ho : ∀ j fj, j < k → files.get? j = some fj →
      env.optimise (inB fj) 1 StripMetadata.safe = Except.ok (outB fj))
    (hfail : env.readF fk = Except.error e ∨
      (env.readF fk = Except.ok (inB fk) ∧
        env.optimise (inB fk) 1 StripMetadata.safe = Except.error e)) :
    ((runFolderCmd env files).err = some e ∧
     (runFolderCmd env files).totalIn = ((files.take k).map (fun f => (inB f).length)).sum ∧
     (runFolderCmd env files).totalOut = ((files.take k).map (fun f => (outB f).length)).sum ∧
     (∀ j p, Op.readOp j p ∈ (runFolderCmd env files).trace → j ≤ k) ∧
     (∀ j lv s, Op.engineOp j lv s ∈ (runFolderCmd env files).trace → j ≤ k) ∧
     (∀ j p d, Op.writeIssue j p d ∈ (runFolderCmd env files).trace → j < k) ∧
     (∀ m, Op.info m ∉ (runFolderCmd env files).trace) ∧
     (∀ w, runFolderCmd { env with write := w } files = runFolderCmd env files)) ∧
    ((runGitCmd env files).err = some e ∧
     (runGitCmd env files).totalIn = ((files.take k).map (fun f => (inB f).length)).sum ∧
     (runGitCmd env files).totalOut = ((files.take k).map (fun f => (outB f).length)).sum ∧
     (∀ j p, Op.readOp j p ∈ (runGitCmd env files).trace → j ≤ k) ∧
     (∀ j lv s, Op.engineOp j lv s ∈ (runGitCmd env files).trace → j ≤ k) ∧
     (∀ j p d, Op.writeIssue j p d ∈ (runGitCmd env files).trace → j < k) ∧
     (∀ m, Op.info m ∉ (runGitCmd env files).trace) ∧
     (∀ w, runGitCmd { env with write := w } files = runGitCmd env files)) := by
  have fF := processLoop_fail_facts env none files inB outB k fk e hk hr ho hfail
  have fG := processLoop_fail_facts env (some 2000) files inB outB k fk e hk hr ho hfail
  have hcmdF : runFolderCmd env files = runFolder env files := by
    have h1 : (runFolder env files).err = some e := fF.1
    simp only [runFolderCmd]
    rw [h1]
  have hcmdG : runGitCmd env files = runGitLoop env files := by
    have h1 : (runGitLoop env files).err = some e := fG.1
    simp only [runGitCmd]
    rw [h1]
  constructor
  · refine ⟨?_, ?_, ?_, ?_, ?_, ?_, ?_, ?_⟩
    · rw [hcmdF]
      exact fF.1
    · rw [hcmdF]
      exact fF.2.1
    · rw [hcmdF]
      exact fF.2.2.1
    · intro j p h
      rw [hcmdF] at h
      exact fF.2.2.2.1 j p h
    · intro j lv s h
      rw [hcmdF] at h
      exact fF.2.2.2.2.1 j lv s h
    · intro j p d h
      rw [hcmdF] at h
      exact fF.2.2.2.2.2.1 j p d h
    · intro m h
      rw [hcmdF] at h
      exact fF.2.2.2.2.2.2 m h
    · intro w
      exact runFolderCmd_write_irrel env w files
  · refine ⟨?_, ?_, ?_, ?_, ?_, ?_, ?_, ?_⟩
    · rw [hcmdG]
      exact fG.1
    · rw [hcmdG]
      exact fG.2.1
    · rw [hcmdG]
      exact fG.2.2.1
    · intro j p h
      rw [hcmdG] at h
      exact fG.2.2.2.1 j p h
    · intro j lv s h
      rw [hcmdG] at h
      exact fG.2.2.2.2.1 j lv s h
    · intro j p d h
      rw [hcmdG] at h
      exact fG.2.2.2.2.2.1 j p d h
    · intro m h
      rw [hcmdG] at h
      exact fG.2.2.2.2.2.2 m h
    · intro w
      exact runGitCmd_write_irrel env w files

/-- Counterexample to C2 as stated: a failing write aborts nothing - the
next file is still read, optimised and written and no error surfaces - and
an engine failure surfaces the raw engine error, which names neither the
failing path nor a completed-count. -/
theorem batch_abort_claim_counterexample :
    (runFolderCmd envWriteFail ["a.png", "b.png"]).err = none ∧
    Op.readOp 1 "b.png" ∈ (runFolderCmd envWriteFail ["a.png", "b.png"]).trace ∧
    Op.writeIssue 1 "b.png" [0] ∈ (runFolderCmd envWriteFail ["a.png", "b.png"]).trace ∧
    (runFolderCmd envEngineFail ["a.png", "b.png"]).err = some "boom" ∧
    strContains "boom" "a.png" = false ∧
    strContains "boom" "completed" = false ∧
    strContains "boom" "0" = false := by
  refine ⟨rfl, by decide, by decide, rfl, by decide, by decide, by decide⟩

/-- Witness for C2 (amended) at a concrete engine failure on the first
file. -/
theorem batch_abort_on_read_or_engine_failure_witness :
    (runFolderCmd envEngineFail ["a.png", "b.png"]).err = some "boom" :=
  (batch_abort_on_read_or_engine_failure envEngineFail ["a.png", "b.png"] demoIn demoOut
    0 "a.png" "boom" rfl
    (fun j _fj hj _ => absurd hj (Nat.not_lt_zero j))
    (fun j _fj hj _ => absurd hj (Nat.not_lt_zero j))
    (Or.inr ⟨rfl, rfl⟩)).1.1

/-! ### Claims C3 and C4: repository selection -/

/-- A git API with no open repository. -/
def demoGitApi0 : GitApi :=
  { repositories := [], getRepository := fun _ => none }

/-- A git API with exactly one open repository. -/
def demoGitApi1 : GitApi :=
  { repositories := [⟨"/r1"⟩], getRepository := fun _ => none }

/-- A git API with two open repositories and root-path resolution. -/
def demoGitApi2 : GitApi :=
  { repositories := [⟨"/r1"⟩, ⟨"/r2"⟩],
    getRepository := fun p =>
      if p = "/r1" then some ⟨"/r1"⟩ else if p = "/r2" then some ⟨"/r2"⟩ else none }

/-- Claim C3: with no explicit target, zero repositories end in the
"No repository found" outcome, one repository is used without prompting,
and two or more repositories prompt exactly once with the root-path list,
resolving the choice through `getRepository`. -/
theorem repo_selection (gitApi : GitApi) (pick : List String → Option String) :
    (gitApi.repositories = [] →
      selectRepo gitApi none pick = (none, []) ∧
      ∀ (modified : Repository → List String) (env : Env),
        commandGitChanges (some gitApi) none pick modified env =
          ⟨[Op.errorMsg "No repository found"], 0, 0, none⟩) ∧
    (∀ r, gitApi.repositories = [r] → selectRepo gitApi none pick = (some r, [])) ∧
    (2 ≤ gitApi.repositories.length →
      (selectRepo gitApi none pick).2 = [gitApi.repositories.map (fun r => r.rootPath)] ∧
      ∀ p, pick (gitApi.repositories.map (fun r => r.rootPath)) = some p →
        (selectRepo gitApi none pick).1 = gitApi.getRepository p) := by
  refine ⟨?_, ?_, ?_⟩
  · intro h
    constructor
    · simp [selectRepo, h]
    · intro modified env
      simp [commandGitChanges, selectRepo, h]
  · intro r h
    simp [selectRepo, h]
  · intro h2
    have h0 : ¬ gitApi.repositories.length = 0 := by omega
    have h1 : ¬ gitApi.repositories.length = 1 := by omega
    constructor
    · cases hp : pick (gitApi.repositories.map (fun r => r.rootPath)) <;>
        simp [selectRepo, h0, h1, hp]
    · intro p hp
      simp [selectRepo, h0, h1, hp]

/-- Witness for C3: the single-repository case returns the repository
without prompting. -/
theorem repo_selection_witness :
    selectRepo demoGitApi1 none (fun _ => none) = (some ⟨"/r1"⟩, []) :=
  (repo_selection demoGitApi1 (fun _ => none)).2.1 ⟨"/r1"⟩ rfl

/-- Claim C4 (amended): cancelling the repository quick-pick touches no
file and runs no batch, but it is not silent - the command falls through
to the same "No repository found" error message as the zero-repository
case. -/
theorem cancel_shows_norepo (gitApi : GitApi) (pick : List String → Option String)
    (modified : Repository → List String) (env : Env)
    (h2 : 2 ≤ gitApi.repositories.length)
    (hc : pick (gitApi.repositories.map (fun r => r.rootPath)) = none) :
    commandGitChanges (some gitApi) none pick modified env =
      ⟨[Op.errorMsg "No repository found"], 0, 0, none⟩ := by
  have h0 : ¬ gitApi.repositories.length = 0 := by omega
  have h1 : ¬ gitApi.repositories.length = 1 := by omega
  simp [commandGitChanges, selectRepo, h0, h1, hc]

/-- Counterexample to C4 as stated: with two repositories and a cancelled
quick-pick the command does produce a user-facing message (the
"No repository found" error); no write is issued, but the run is not
silent. -/
theorem cancel_claim_counterexample :
    Op.errorMsg "No repository found" ∈
      (commandGitChanges (some demoGitApi2) none (fun _ => none) (fun _ => []) demoEnv).trace ∧
    (commandGitChanges (some demoGitApi2) none (fun _ => none) (fun _ => []) demoEnv).trace =
      [Op.errorMsg "No repository found"] := by
  exact ⟨by decide, by decide⟩

/-- Witness for C4 (amended) at a concrete two-repository API. -/
theorem cancel_shows_norepo_witness :
    commandGitChanges (some demoGitApi2) none (fun _ => none) (fun _ => []) demoEnv =
      ⟨[Op.errorMsg "No repository found"], 0, 0, none⟩ :=
  cancel_shows_norepo demoGitApi2 (fun _ => none) (fun _ => []) demoEnv (by decide) rfl

/-! ### Claim C5: sequencing -/

/-- Claim C5 (amended): in every valid execution of a successful batch -
folder mode and change-set mode alike - file `j`'s read, engine call and
write *issue* all happen before file `j + 1`'s read; only the write's
asynchronous completion may land later (see the counterexample for the
original claim). -/
theorem strict_sequencing_amended (env : Env) (files : List String)
    (inB outB : String → Bytes)
    (hr : ∀ f ∈ files, env.readF f = Except.ok (inB f))
    (ho : ∀ f ∈ files, env.optimise (inB f) 1 StripMetadata.safe = Except.ok (outB f))
    (j : Nat) (fj fj1 : String)
    (hj : files.get? j = some fj) (hj1 : files.get? (j + 1) = some fj1) :
    (∀ tr, validTrace (runFolder env files).trace tr →
      ∃ m₁ m₂ m₃, tr = m₁ ++ Op.readOp j fj :: (m₂ ++ Op.readOp (j + 1) fj1 :: m₃) ∧
        Op.engineOp j 1 StripMetadata.safe ∈ m₂ ∧ Op.writeIssue j fj (outB fj) ∈ m₂) ∧
    (∀ tr, validTrace (runGitLoop env files).trace tr →
      ∃ m₁ m₂ m₃, tr = m₁ ++ Op.readOp j fj :: (m₂ ++ Op.readOp (j + 1) fj1 :: m₃) ∧
        Op.engineOp j 1 StripMetadata.safe ∈ m₂ ∧ Op.writeIssue j fj (outB fj) ∈ m₂) := by
  constructor
  · intro tr hv
    obtain ⟨l₁, l₂, hdec⟩ :=
      @blocksFrom_decomp2 inB outB none files.length files 0 j fj fj1 hj hj1
    have hbase : (runFolder env files).trace =
        (Op.report 0 "Starting..." :: l₁ ++
            [Op.report (100 / (files.length : ℚ)) (fileName fj)]) ++
          Op.readOp j fj ::
            (([Op.engineOp j 1 StripMetadata.safe,
               Op.recordOp j (inB fj).length (outB fj).length,
               Op.writeIssue j fj (outB fj),
               Op.report (100 / (files.length : ℚ)) (fileName fj1)]) ++
              Op.readOp (j + 1) fj1 ::
                ([Op.engineOp (j + 1) 1 StripMetadata.safe,
                  Op.recordOp (j + 1) (inB fj1).length (outB fj1).length,
                  Op.writeIssue (j + 1) fj1 (outB fj1)] ++ l₂)) := by
      rw [runFolder_success env files inB outB hr ho]
      simp only [hdec, Nat.zero_add]
      simp [blk, pauseList, List.append_assoc]
    have hsub : List.Sublist (tr.filter (fun o => !o.isDone)) tr := List.filter_sublist tr
    rw [hv.1, hbase] at hsub
    obtain ⟨m₁, m₂, m₃, htr, hmem⟩ := sublist_mid_split _ _ _ _ _ tr hsub
    refine ⟨m₁, m₂, m₃, htr, ?_, ?_⟩
    · exact hmem _ (by simp)
    · exact hmem _ (by simp)
  · intro tr hv
    obtain ⟨l₁, l₂, hdec⟩ :=
      @blocksFrom_decomp2 inB outB (some 2000) files.length files 0 j fj fj1 hj hj1
    have hbase : (runGitLoop env files).trace =
        (Op.report 0 "Starting..." :: l₁ ++
            [Op.report (100 / (files.length : ℚ)) (fileName fj)]) ++
          Op.readOp j fj ::
            (([Op.engineOp j 1 StripMetadata.safe, Op.pauseOp j 2000,
               Op.recordOp j (inB fj).length (outB fj).length,
               Op.writeIssue j fj (outB fj),
               Op.report (100 / (files.length : ℚ)) (fileName fj1)]) ++
              Op.readOp (j + 1) fj1 ::
                ([Op.engineOp (j + 1) 1 StripMetadata.safe, Op.pauseOp (j + 1) 2000,
                  Op.recordOp (j + 1) (inB fj1).length (outB fj1).length,
                  Op.writeIssue (j + 1) fj1 (outB fj1)] ++ l₂)) := by
      rw [runGitLoop_success env files inB outB hr ho]
      simp only [hdec, Nat.zero_add]
      simp [blk, pauseList, List.append_assoc]
    have hsub : List.Sublist (tr.filter (fun o => !o.isDone)) tr := List.filter_sublist tr
    rw [hv.1, hbase] at hsub
    obtain ⟨m₁, m₂, m₃, htr, hmem⟩ := sublist_mid_split _ _ _ _ _ tr hsub
    refine ⟨m₁, m₂, m₃, htr, ?_, ?_⟩
    · exact hmem _ (by simp)
    · exact hmem _ (by simp)

/-- A full execution of the two-file demo batch in which the first file's
write completes only after the whole batch: allowed by the un-awaited
`writeFile`. -/
def c5trace : List Op :=
  (runFolder demoEnv ["a.png", "b.png"]).trace ++ [Op.writeDone 1, Op.writeDone 0]

/-- Counterexample to C5 as stated: `c5trace` is a valid execution of the
demo batch, yet the write of file 0 completes after the read of file 1
began - the write step does not complete before the next file starts. -/
theorem strict_sequencing_claim_counterexample :
    validTrace (runFolder demoEnv ["a.png", "b.png"]).trace c5trace ∧
    ¬ claimC5holds c5trace := by
  refine ⟨⟨rfl, by decide⟩, ?_⟩
  unfold claimC5holds
  decide

/-- Witness for C5 (amended) on the demo batch, taking the synchronous
trace itself as the execution. -/
theorem strict_sequencing_amended_witness :
    ∃ m₁ m₂ m₃, (runFolder demoEnv ["a.png", "b.png"]).trace =
      m₁ ++ Op.readOp 0 "a.png" :: (m₂ ++ Op.readOp 1 "b.png" :: m₃) ∧
      Op.engineOp 0 1 StripMetadata.safe ∈ m₂ ∧
      Op.writeIssue 0 "a.png" (demoOut "a.png") ∈ m₂ :=
  (strict_sequencing_amended demoEnv ["a.png", "b.png"] demoIn demoOut
    (fun _ _ => rfl) (fun _ _ => rfl) 0 "a.png" "b.png" rfl rfl).1
    (runFolder demoEnv ["a.png", "b.png"]).trace ⟨rfl, by decide⟩

end Oxipng
